import Mathlib

/-!
Verification model of `saleae_parser.py` (Saleae Logic 2 export parser).

The Python source is shallowly embedded: each stateful loop becomes an
explicit state structure plus a step function folded over the input lines,
strings are `String` / `List Char`, machine integers are `Nat` with explicit
`% 256` where the source truncates, and dictionary/attribute access is made
explicit.  Definitions follow the source line by line; the theorems at the
bottom settle the specification claims.
-/

set_option maxRecDepth 20000

namespace Saleae

/-- Value of a hex digit character, as `int(c, 16)` computes it for a valid
digit (invalid characters, which make Python raise, are mapped to 0). -/
def hexDigitVal (c : Char) : Nat :=
  if '0' ≤ c ∧ c ≤ '9' then c.toNat - 48
  else if 'a' ≤ c ∧ c ≤ 'f' then c.toNat - 87
  else if 'A' ≤ c ∧ c ≤ 'F' then c.toNat - 55
  else 0

/-- Accumulator form of base-16 parsing over a digit list (MSB first). -/
def hexParseAux (acc : Nat) : List Char → Nat
  | [] => acc
  | c :: rest => hexParseAux (16 * acc + hexDigitVal c) rest

/-- `int(s, 16)` on a string of hex digits. -/
def hexParse (s : String) : Nat := hexParseAux 0 s.data

/-- `s.replace('0x', '')`: remove every (non-overlapping, left to right)
occurrence of the two-character substring `0x`. -/
def remove0x : List Char → List Char
  | '0' :: 'x' :: rest => remove0x rest
  | c :: rest => c :: remove0x rest
  | [] => []

/-- String-level wrapper for `remove0x`. -/
def strip0x (s : String) : String := String.mk (remove0x s.data)

/-- `line.replace('"', '')`: drop every double-quote character. -/
def removeQuotesL (l : List Char) : List Char := l.filter (fun c => c != '"')

/-- Helper for `splitComma`: accumulates the current (reversed) field. -/
def splitCommaAux (cur : List Char) : List Char → List String
  | [] => [String.mk cur.reverse]
  | ',' :: rest => String.mk cur.reverse :: splitCommaAux [] rest
  | c :: rest => splitCommaAux (c :: cur) rest

/-- `line.split(',')` (no limit, empty fields kept). -/
def splitComma (s : String) : List String := splitCommaAux [] s.data

/-- Whitespace characters stripped by `str.rstrip()` (the ones occurring in
Saleae exports). -/
def isSpaceChar (c : Char) : Bool := c == ' ' || c == '\t' || c == '\n' || c == '\r'

/-- `line.rstrip()` on a character list. -/
def rstripL (l : List Char) : List Char := (l.reverse.dropWhile isSpaceChar).reverse

/-- `line.rstrip()`. -/
def rstripS (s : String) : String := String.mk (rstripL s.data)

/-- Drop leading double quotes. -/
def dropQ : List Char → List Char
  | '"' :: rest => dropQ rest
  | l => l

/-- `h.strip('"')`: remove all leading and trailing double-quote characters. -/
def stripQuotes (s : String) : String :=
  String.mk ((dropQ ((dropQ s.data).reverse)).reverse)

/-- Index of the last occurrence of `k` (Python dict insertion with
overwrite keeps the last position assigned to a repeated key). -/
def lastIdxAux (k : String) (i : Nat) (best : Option Nat) : List String → Option Nat
  | [] => best
  | x :: rest => lastIdxAux k (i + 1) (if x = k then some i else best) rest

/-- `self.header_pos[k]` for a header list whose entries are the dict keys. -/
def headerIdx (headers : List String) (k : String) : Option Nat :=
  lastIdxAux k 0 none headers

/-- `values[pos]` with a total fallback (the modelled traces never go out of
range: rows are length-checked against the header first). -/
def getV (values : List String) (i : Option Nat) : String :=
  match i with
  | some j => values.getD j ""
  | none => ""

/-- `len(self.header_pos)`: number of distinct header names. -/
def numCols (headers : List String) : Nat := headers.dedup.length

/-- Opcode of the plain read command (`device['READ']`). -/
def READ : String := "03"

/-- Opcode of the fast-read command (`device['FAST_READ']`). -/
def FAST_READ : String := "0B"

/-- Opcode of the dual-line fast-read command (`device['FAST_DUAL_READ']`). -/
def FAST_DUAL_READ : String := "3B"

/-- Opcode of the quad-line fast-read command (`device['FAST_QUAD_READ']`). -/
def FAST_QUAD_READ : String := "EB"

/-- Uppercase hex digit character for a value below 16. -/
def hexCharUpper (n : Nat) : Char :=
  if n < 10 then Char.ofNat (48 + n) else Char.ofNat (55 + n)

/-- Fuel-driven digit extraction: `fuel = n` always suffices because the
value shrinks by a factor of 16 at every step. -/
def hexCharsUpperAux : Nat → Nat → List Char
  | 0, n => [hexCharUpper n]
  | fuel + 1, n =>
    if n < 16 then [hexCharUpper n]
    else hexCharsUpperAux fuel (n / 16) ++ [hexCharUpper (n % 16)]

/-- Uppercase hex digits of `n`, most significant first (`"0"` for zero),
as produced by Python's `hex`/`format` up to case. -/
def hexCharsUpper (n : Nat) : List Char := hexCharsUpperAux n n

/-- `'0x{0:0{1}X}'.format(b, 2).replace('0x', '')`: two-digit (or longer)
uppercase hex rendering of a byte value. -/
def byteHex (n : Nat) : String :=
  String.mk (List.replicate (2 - (hexCharsUpper n).length) '0' ++ hexCharsUpper n)

/-- `"{:0>6x}".format(n).upper()`: hex rendering left-padded with `0` to at
least six characters. -/
def pad6Hex (n : Nat) : String :=
  String.mk (List.replicate (6 - (hexCharsUpper n).length) '0' ++ hexCharsUpper n)

/-- One nibble-interleave step of `SPI.read_file` (the source repeats this
eight-term expression verbatim for the upper and the lower byte): `x` is a
nibble of the MISO byte, `y` the matching nibble of the MOSI byte. -/
def nibMix (x y : Nat) : Nat :=
  ((x &&& 0x8) <<< 4) ||| ((y &&& 0x8) <<< 3) |||
    ((x &&& 0x4) <<< 3) ||| ((y &&& 0x4) <<< 2) |||
    ((x &&& 0x2) <<< 2) ||| ((y &&& 0x2) <<< 1) |||
    ((x &&& 0x1) <<< 1) ||| (y &&& 0x1)

/-- The dual-read byte recovery of `SPI.read_file`: `a` is the parsed MISO
byte, `b` the parsed MOSI byte; the result is `(upper_byte, lower_byte)`,
computed exactly as in the source (MISO bits land in odd positions, MOSI
bits in even positions of each reconstructed byte). -/
def dualBytes (a b : Nat) : Nat × Nat :=
  let nibble_up_a := (a &&& 0xf0) >>> 4
  let nibble_low_a := a &&& 0x0f
  let nibble_up_b := (b &&& 0xf0) >>> 4
  let nibble_low_b := b &&& 0x0f
  (nibMix nibble_up_a nibble_up_b, nibMix nibble_low_a nibble_low_b)

/-- Extract the four odd bit positions 7, 5, 3, 1 of a byte into a nibble
(bit 7 becomes bit 3 of the nibble, and so on). -/
def oddBitsNib (x : Nat) : Nat :=
  (((x >>> 7) &&& 1) <<< 3) ||| (((x >>> 5) &&& 1) <<< 2) |||
    (((x >>> 3) &&& 1) <<< 1) ||| ((x >>> 1) &&& 1)

/-- Extract the four even bit positions 6, 4, 2, 0 of a byte into a nibble. -/
def evenBitsNib (x : Nat) : Nat :=
  (((x >>> 6) &&& 1) <<< 3) ||| (((x >>> 4) &&& 1) <<< 2) |||
    (((x >>> 2) &&& 1) <<< 1) ||| (x &&& 1)

/-- De-interleave: recover the MISO byte from the odd bit positions of the
two recovered output bytes. -/
def recoverMiso (u l : Nat) : Nat := (oddBitsNib u <<< 4) ||| oddBitsNib l

/-- De-interleave: recover the MOSI byte from the even bit positions of the
two recovered output bytes. -/
def recoverMosi (u l : Nat) : Nat := (evenBitsNib u <<< 4) ||| evenBitsNib l

/-! ## The SPI flash-read reconstructor (`SPI.read_file`, srecord/binary path) -/

/-- A closed SPI transaction: `{'address': address, 'data': data_buf}`. -/
structure SpiEntry where
  address : String
  data : List String
deriving Repr, DecidableEq, Inhabited

/-- The loop state of `SPI.read_file`.  `command_found` is `False` or the
matched opcode string in the source; `halted` records that the `return`
on a missing MISO column was taken (nothing is processed afterwards). -/
structure SpiState where
  command_found : Option String
  count : Nat
  address : String
  data_buf : List String
  res_count : Nat
  results : List SpiEntry
  halted : Bool
deriving Repr, DecidableEq, Inhabited

/-- The loop state before the first data row. -/
def initSpi : SpiState :=
  { command_found := none, count := 0, address := "", data_buf := [],
    res_count := 0, results := [], halted := false }

/-- `values[self.header_pos['type']]`. -/
def typeVal (headers values : List String) : String :=
  getV values (headerIdx headers "type")

/-- `values[self.header_pos['mosi']].replace('0x', '')`. -/
def mosiVal (headers values : List String) : String :=
  strip0x (getV values (headerIdx headers "mosi"))

/-- `values[self.header_pos['miso']].replace('0x', '')`. -/
def misoVal (headers values : List String) : String :=
  strip0x (getV values (headerIdx headers "miso"))

/-- Per-cycle processing while a command is active.  This block is textually
identical in the type-column and the no-type-column branches of the source. -/
def spiProcessCmd (s : SpiState) (cmd mosi_val miso_val : String) : SpiState :=
  if cmd = READ then
    if s.count ≤ 3 then { s with address := s.address ++ mosi_val, count := s.count + 1 }
    else { s with data_buf := s.data_buf ++ [miso_val], count := s.count + 1 }
  else if cmd = FAST_READ then
    if s.count ≤ 3 then { s with address := s.address ++ mosi_val, count := s.count + 1 }
    else if s.count = 4 then { s with count := s.count + 1 }
    else { s with data_buf := s.data_buf ++ [miso_val], count := s.count + 1 }
  else if cmd = FAST_DUAL_READ then
    if s.count ≤ 3 then { s with address := s.address ++ mosi_val, count := s.count + 1 }
    else if s.count = 4 then { s with count := s.count + 1 }
    else
      { s with
        data_buf := s.data_buf ++
          [byteHex (dualBytes (hexParse miso_val) (hexParse mosi_val)).1,
           byteHex (dualBytes (hexParse miso_val) (hexParse mosi_val)).2],
        count := s.count + 1 }
  else if cmd = FAST_QUAD_READ then { s with count := s.count + 1 }
  else s

/-- A `"result"` row in the type-column branch, after the MOSI/MISO fields
have been read. -/
def spiResultType (s : SpiState) (mosi_val miso_val : String) : SpiState :=
  match s.command_found with
  | none =>
    if mosi_val = READ ∧ s.res_count = 0 then
      { s with command_found := some READ, count := s.count + 1 }
    else if mosi_val = FAST_READ ∧ s.res_count = 0 then
      { s with command_found := some FAST_READ }
    else if mosi_val = FAST_DUAL_READ ∧ s.res_count = 0 then
      { s with command_found := some FAST_DUAL_READ }
    else if mosi_val = FAST_QUAD_READ ∧ s.res_count = 0 then
      { s with command_found := some FAST_QUAD_READ }
    else { s with res_count := s.res_count + 1 }
  | some cmd => spiProcessCmd s cmd mosi_val miso_val

/-- One row of the parser branch for exports that carry a `type` column. -/
def spiStepType (headers : List String) (s : SpiState) (values : List String) : SpiState :=
  if typeVal headers values = "\"disable\"" then
    if s.command_found.isSome then
      { s with
        command_found := none,
        results := s.results ++ [{ address := s.address, data := s.data_buf }],
        address := "", data_buf := [], count := 0, res_count := 0 }
    else { s with res_count := 0 }
  else if typeVal headers values = "\"result\"" then
    if headers.contains "miso" then
      spiResultType s (mosiVal headers values) (misoVal headers values)
    else { s with halted := true }
  else s

/-- Command detection (`if not command_found: ...`) or per-cycle processing,
the second half of the no-type-column branch. -/
def spiDetect (s1 : SpiState) (mosi_val miso_val : String) : SpiState :=
  match s1.command_found with
  | none =>
    if mosi_val = READ then { s1 with command_found := some READ, count := s1.count + 1 }
    else if mosi_val = FAST_READ then
      { s1 with command_found := some FAST_READ, count := s1.count + 1 }
    else if mosi_val = FAST_DUAL_READ then
      { s1 with command_found := some FAST_DUAL_READ, count := s1.count + 1 }
    else if mosi_val = FAST_QUAD_READ then
      { s1 with command_found := some FAST_QUAD_READ, count := s1.count + 1 }
    else s1
  | some cmd => spiProcessCmd s1 cmd mosi_val miso_val

/-- Body of the no-type-column branch once MOSI/MISO have been resolved:
first the new-command boundary check, then command detection or per-cycle
processing. -/
def spiNoTypeBody (s : SpiState) (mosi_val miso_val : String) : SpiState :=
  let s1 :=
    if s.command_found.isSome ∧ s.count > 4 ∧
        (mosi_val = READ ∨ mosi_val = FAST_READ ∨ mosi_val = FAST_DUAL_READ ∨
          mosi_val = FAST_QUAD_READ) then
      { s with
        command_found := none,
        results := s.results ++ [{ address := s.address, data := s.data_buf }],
        address := "", data_buf := [], count := 0 }
    else s
  spiDetect s1 mosi_val miso_val

/-- One row of the parser branch for exports without a `type` column. -/
def spiStepNoType (headers : List String) (s : SpiState) (values : List String) : SpiState :=
  if headers.contains "miso" then
    spiNoTypeBody s (mosiVal headers values) (misoVal headers values)
  else if headers.contains "MISO" then
    spiNoTypeBody s (strip0x (getV values (headerIdx headers "MOSI")))
      (strip0x (getV values (headerIdx headers "MISO")))
  else { s with halted := true }

/-- One data row of `SPI.read_file`.  A row whose comma-field count differs
from the header dictionary size is skipped with a warning (appending the
stray quote in the source never changes the field count, so the retry
always leaves the count unchanged). -/
def spiStep (headers : List String) (s : SpiState) (values : List String) : SpiState :=
  if s.halted then s
  else if values.length ≠ numCols headers then s
  else if headers.contains "type" then spiStepType headers s values
  else spiStepNoType headers s values

/-- Run the SPI reconstructor over already-tokenized data rows. -/
def spiRunRows (headers : List String) (rows : List (List String)) : SpiState :=
  rows.foldl (spiStep headers) initSpi

/-- `SPI.read_file` for the srecord/binary path: the first line is the
header (`rstrip`, quote removal, comma split), every further line is a
tokenized data row. -/
def spiReadFile (lines : List String) : SpiState :=
  match lines with
  | [] => initSpi
  | hline :: rest =>
    let headers := splitComma (String.mk (removeQuotesL (rstripL hline.data)))
    spiRunRows headers (rest.map (fun l => splitComma (rstripS l)))

/-! ## The S-record encoder (`SPI.print_results`, `-s` path) -/

/-- Split a list into `n`-sized chunks (`Analyzer.divide_chunks`), by fuel
recursion; the fuel `l.length` suffices for every positive `n`. -/
def dcFuel (fuel : Nat) (l : List α) (n : Nat) : List (List α) :=
  match fuel, l with
  | 0, _ => []
  | _, [] => []
  | f + 1, x :: xs => (x :: xs).take n :: dcFuel f ((x :: xs).drop n) n

/-- `list(self.divide_chunks(l, n))`. -/
def divide_chunks (l : List α) (n : Nat) : List (List α) := dcFuel l.length l n

/-- `[address[i:i+2] for i in range(0, len(address), 2)]` on a character
list: consecutive pairs, with a trailing singleton for odd length. -/
def hexPairsC : List Char → List (List Char)
  | [] => []
  | [c] => [[c]]
  | c1 :: c2 :: rest => [c1, c2] :: hexPairsC rest

/-- Sum of `int(b, 16)` over the two-character slices of a hex string, as
the checksum loop of `SPI.print_results` computes it. -/
def pairSum (s : String) : Nat :=
  ((hexPairsC s.data).map (fun p => hexParseAux 0 p)).sum

/-- `''.join(chunk)`. -/
def joinAll : List String → String
  | [] => ""
  | s :: ss => s ++ joinAll ss

/-- One emitted `S2` line, by its four printed components (`byte_count` and
`checksum` are kept as the numeric values their hex renderings encode). -/
structure SRecLine where
  byte_count : Nat
  address : String
  data : String
  checksum : Nat
deriving Repr, DecidableEq, Inhabited

/-- Build one `S2` line: `count` is `len(chunk)`, `vals` the list of
`int(b, 16)` for `b in chunk`, `joined` is `''.join(chunk)`.  The checksum
is the low byte of the running sum, xored with `0xff` (one's complement). -/
def lineFor (address : String) (count : Nat) (vals : List Nat) (joined : String) : SRecLine :=
  let byte_count := count + 3 + 1
  let temp_checksum := pairSum address + vals.sum
  let checksum := ((byte_count + temp_checksum) % 256) ^^^ 255
  { byte_count := byte_count, address := address, data := joined, checksum := checksum }

/-- `"{:0>6x}".format(int(address, 16) + SRECORD_DATA_SIZE).upper()`. -/
def nextAddress (address : String) : String := pad6Hex (hexParse address + 32)

/-- Emit the lines of the `data_len > 32` path: each chunk is a list of
byte strings. -/
def goChunks (address : String) : List (List String) → List SRecLine
  | [] => []
  | c :: cs =>
    lineFor address c.length (c.map hexParse) (joinAll c) ::
      goChunks (nextAddress address) cs

/-- Emit the lines of the `data_len <= 32` path of the source, where
`data_chunks = entry['data']` and therefore each *byte string* is iterated
as a chunk of single hex characters. -/
def goSingles (address : String) : List String → List SRecLine
  | [] => []
  | s0 :: ss =>
    lineFor address s0.length (s0.data.map hexDigitVal) s0 ::
      goSingles (nextAddress address) ss

/-- All `S2` lines printed by `SPI.print_results` for one result entry. -/
def srecLines (address : String) (data : List String) : List SRecLine :=
  if data.length > 32 then goChunks address (divide_chunks data 32)
  else goSingles address data

/-! ## The CAN frame grouper (`CAN.read_file`, `--can` path) -/

/-- A grouped CAN frame: `{'id': ..., 'data': [...]}`. -/
structure CanEntry where
  id : String
  data : List String
deriving Repr, DecidableEq, Inhabited

/-- Loop state of `CAN.read_file`: the `identifier` flag, the in-progress
frame (`temp_entry`), the finalized frames and the identifier tally. -/
structure CanState where
  identifier : Bool
  temp : CanEntry
  results : List CanEntry
  id_counter : List (String × Nat)
deriving Repr, DecidableEq, Inhabited

/-- Lookup in the (insertion-ordered) tally dictionary. -/
def dictGet (d : List (String × Nat)) (k : String) : Option Nat :=
  (d.find? (fun p => p.1 == k)).map (fun p => p.2)

/-- `d[k] = v` on the tally dictionary. -/
def dictSet (d : List (String × Nat)) (k : String) (v : Nat) : List (String × Nat) :=
  if d.any (fun p => p.1 == k) then
    d.map (fun p => if p.1 == k then (p.1, v) else p)
  else d ++ [(k, v)]

/-- `if k in d: d[k] += 1 else: d[k] = 1`. -/
def dictIncr (d : List (String × Nat)) (k : String) : List (String × Nat) :=
  match dictGet d k with
  | some n => dictSet d k (n + 1)
  | none => dictSet d k 1

/-- Header positions in `CAN.read_file` are keyed by `h.strip('"')`. -/
def headerIdxQ (headers : List String) (k : String) : Option Nat :=
  headerIdx (headers.map stripQuotes) k

/-- One data row of `CAN.read_file`. -/
def canStep (headers : List String) (s : CanState) (values : List String) : CanState :=
  if getV values (headerIdxQ headers "type") = "\"identifier_field\"" then
    if s.identifier = false then
      { s with
        temp := { id := getV values (headerIdxQ headers "identifier"), data := [] },
        identifier := true,
        id_counter := dictSet s.id_counter (getV values (headerIdxQ headers "identifier")) 1 }
    else
      { s with
        results := s.results ++ [s.temp],
        temp := { id := getV values (headerIdxQ headers "identifier"), data := [] },
        id_counter := dictIncr s.id_counter (getV values (headerIdxQ headers "identifier")) }
  else if getV values (headerIdxQ headers "type") = "\"data_field\"" then
    if s.identifier then
      { s with temp := { id := s.temp.id, data := s.temp.data ++ [getV values (headerIdxQ headers "data")] } }
    else s
  else s

/-- The state before the first data row of `CAN.read_file`. -/
def initCan : CanState :=
  { identifier := false, temp := { id := "", data := [] }, results := [], id_counter := [] }

/-- `CAN.read_file` on the special `--can` path: header line, then a fold of
`canStep` over the remaining rows.  Nothing is appended after the loop, so
the frame still open at end of stream stays in `temp`. -/
def canReadFile (lines : List String) : CanState :=
  match lines with
  | [] => initCan
  | hline :: rest =>
    let headers := splitComma (rstripS hline)
    rest.foldl (fun s l => canStep headers s (splitComma (rstripS l))) initCan

/-! ## The base reader with the context-window filter (`Analyzer.read_file`) -/

/-- A parsed record: `val` is the field list; `before`/`after` model the
optional dictionary keys of the same names (`none` = key absent). -/
structure AEntry where
  val : List String
  before : Option (List (List String))
  after : Option (List (List String))
deriving Repr, DecidableEq, Inhabited

/-- Loop state of `Analyzer.read_file`. -/
structure AState where
  results : List AEntry
  before_buffer : List (List String)
  after_buffer : List (List String)
deriving Repr, DecidableEq, Inhabited

/-- The configuration consumed by `Analyzer.read_file`: `none` models the
attribute being absent (`hasattr` false; note `-b 0` / `-a 0` are falsy in
the constructor and also leave the attribute unset). -/
structure AConfig where
  data_filter : Option String
  before : Option Nat
  after : Option Nat

/-- `startsWithL p s`: `p` is a prefix of `s`. -/
def startsWithL : List Char → List Char → Bool
  | [], _ => true
  | _ :: _, [] => false
  | p :: ps, c :: cs => p == c && startsWithL ps cs

/-- Substring containment on character lists. -/
def containsL (pat : List Char) : List Char → Bool
  | [] => startsWithL pat []
  | c :: cs => startsWithL pat (c :: cs) || containsL pat cs

/-- `re.search(data_filter, line, re.IGNORECASE)` for the metacharacter-free
byte patterns the tool is used with: case-insensitive substring match. -/
def matchesCI (pat line : String) : Bool :=
  containsL (pat.data.map Char.toLower) (line.data.map Char.toLower)

/-- `self.results[-1]['after'] = after_buffer` (unconditional overwrite). -/
def setLastAfter : List AEntry → List (List String) → List AEntry
  | [], _ => []
  | [e], buf => [{ e with after := some buf }]
  | e :: e2 :: rest, buf => e :: setLastAfter (e2 :: rest) buf

/-- `if 'after' not in self.results[-1]: self.results[-1]['after'] = after_buffer`. -/
def setLastAfterIfAbsent : List AEntry → List (List String) → List AEntry
  | [], _ => []
  | [e], buf => [if e.after.isSome then e else { e with after := some buf }]
  | e :: e2 :: rest, buf => e :: setLastAfterIfAbsent (e2 :: rest) buf

/-- One data line of `Analyzer.read_file`. -/
def analyzerStep (cfg : AConfig) (s : AState) (line : String) : AState :=
  let values := splitComma (rstripS line)
  match cfg.data_filter with
  | none => { s with results := s.results ++ [{ val := values, before := none, after := none }] }
  | some pat =>
    if matchesCI pat (rstripS line) then
      let rs := if s.results.length > 0 then setLastAfter s.results s.after_buffer else s.results
      { results := rs ++ [{ val := values, before := some s.before_buffer, after := none }],
        before_buffer := [], after_buffer := [] }
    else
      let bb :=
        match cfg.before with
        | some bcap =>
          if s.before_buffer.length < bcap then s.before_buffer ++ [values]
          else s.before_buffer.tail ++ [values]
        | none => s.before_buffer
      match cfg.after with
      | some acap =>
        if s.results.length > 0 then
          if s.after_buffer.length < acap then
            { results := s.results, before_buffer := bb, after_buffer := s.after_buffer ++ [values] }
          else
            { results := setLastAfterIfAbsent s.results s.after_buffer,
              before_buffer := bb, after_buffer := s.after_buffer }
        else { results := s.results, before_buffer := bb, after_buffer := s.after_buffer }
      | none => { results := s.results, before_buffer := bb, after_buffer := s.after_buffer }

/-- Merge a short record with its successor: the last field of the short
record is joined to the successor's first field with an embedded newline,
then the successor's remaining fields are appended. -/
def mergeVal (r nxt : List String) : List String :=
  r.dropLast ++ [r.getLastD "" ++ "\n" ++ nxt.headD ""] ++ nxt.tail

/-- The repair loop of `Analyzer.read_file` from a current entry: while the
current field list is shorter than the header, merge in the next entry
(which is then removed from the stream), then emit and continue. -/
def repairGo (hlen : Nat) (r : AEntry) : List AEntry → List AEntry
  | [] => [r]
  | nxt :: rest =>
    if r.val.length < hlen then
      repairGo hlen { r with val := mergeVal r.val nxt.val } rest
    else r :: repairGo hlen nxt rest

/-- The quoted-newline repair pass over the whole result list. -/
def repairEntries (hlen : Nat) : List AEntry → List AEntry
  | [] => []
  | e :: es => repairGo hlen e es

/-- The state before the first data line of `Analyzer.read_file`. -/
def initA : AState := { results := [], before_buffer := [], after_buffer := [] }

/-- `Analyzer.read_file`: header line, a fold of `analyzerStep` over the
remaining lines, then the quoted-newline repair pass (which compares field
counts against `len(self.headers)`). -/
def analyzerReadFile (cfg : AConfig) (lines : List String) : AState :=
  match lines with
  | [] => initA
  | hline :: rest =>
    let headers := splitComma (rstripS hline)
    let s := rest.foldl (analyzerStep cfg) initA
    { s with results := repairEntries headers.length s.results }

/-! ## Specification-side observers -/

/-- A logical row of a valid export: either one physical line with the full
field count, or one logical row split across two physical lines by a quoted
newline. -/
inductive LRow where
  | full (v : List String) : LRow
  | split (a b : List String) : LRow
deriving Repr, DecidableEq

/-- The physical records a logical row contributes to the parsed stream. -/
def encodeRow : LRow → List AEntry
  | .full v => [{ val := v, before := none, after := none }]
  | .split a b =>
    [{ val := a, before := none, after := none }, { val := b, before := none, after := none }]

/-- The record a logical row should become after the repair pass. -/
def decodeRow : LRow → AEntry
  | .full v => { val := v, before := none, after := none }
  | .split a b => { val := mergeVal a b, before := none, after := none }

/-- Validity of one logical row against a header of `hlen` fields: a split
row has two nonempty physical parts, the first short of the header, and one
shared field (the quoted-newline field) counted on both sides. -/
def validRow (hlen : Nat) : LRow → Prop
  | .full v => v.length = hlen
  | .split a b => a ≠ [] ∧ b ≠ [] ∧ a.length < hlen ∧ a.length + b.length = hlen + 1

instance validRowDecidable (hlen : Nat) (r : LRow) : Decidable (validRow hlen r) := by
  cases r <;> (simp only [validRow]; infer_instance)

/-- One step of the idle-result-row tally: skipped rows leave it unchanged,
a `"disable"` row resets it, a `"result"` row increments it. -/
def idleStep (headers : List String) (n : Nat) (values : List String) : Nat :=
  if values.length ≠ numCols headers then n
  else if typeVal headers values = "\"disable\"" then 0
  else if typeVal headers values = "\"result\"" then n + 1
  else n

/-- Number of `"result"` rows processed since the start of the stream or the
most recent `"disable"` row (skipped rows excluded), the quantity that
`res_count` tracks while no command is active. -/
def idleResultCount (headers : List String) (rows : List (List String)) : Nat :=
  rows.foldl (idleStep headers) 0

/-! ## Bit-interleave lemmas (claim C7) -/

theorem nibMix_roundtrip_fin : ∀ x : Fin 16, ∀ y : Fin 16,
    oddBitsNib (nibMix x.val y.val) = x.val ∧ evenBitsNib (nibMix x.val y.val) = y.val := by
  decide

theorem nibbles_of_byte_fin : ∀ a : Fin 256,
    (a.val &&& 0xf0) >>> 4 = a.val / 16 ∧ (a.val &&& 0x0f) = a.val % 16 := by
  decide

theorem shift4_or_fin : ∀ x : Fin 16, ∀ y : Fin 16,
    ((x.val <<< 4) ||| y.val) = 16 * x.val + y.val := by
  decide

theorem nibMix_roundtrip (x y : Nat) (hx : x < 16) (hy : y < 16) :
    oddBitsNib (nibMix x y) = x ∧ evenBitsNib (nibMix x y) = y :=
  nibMix_roundtrip_fin ⟨x, hx⟩ ⟨y, hy⟩

theorem nibbles_of_byte (a : Nat) (ha : a < 256) :
    (a &&& 0xf0) >>> 4 = a / 16 ∧ (a &&& 0x0f) = a % 16 :=
  nibbles_of_byte_fin ⟨a, ha⟩

theorem shift4_or (x y : Nat) (hx : x < 16) (hy : y < 16) :
    ((x <<< 4) ||| y) = 16 * x + y :=
  shift4_or_fin ⟨x, hx⟩ ⟨y, hy⟩

theorem dualBytes_eq_nibMix (a b : Nat) (ha : a < 256) (hb : b < 256) :
    dualBytes a b = (nibMix (a / 16) (b / 16), nibMix (a % 16) (b % 16)) := by
  simp only [dualBytes]
  rw [(nibbles_of_byte a ha).1, (nibbles_of_byte a ha).2,
    (nibbles_of_byte b hb).1, (nibbles_of_byte b hb).2]

/-- C7: for every pair of one-byte MISO/MOSI values, extracting the odd bit
positions of the two bytes recovered by the dual-read nibble interleave
gives back the MISO byte and extracting the even bit positions gives back
the MOSI byte, so the interleave is invertible (hence injective). -/
theorem c7_dual_read_roundtrip (a b : Nat) (ha : a < 256) (hb : b < 256) :
    recoverMiso (dualBytes a b).1 (dualBytes a b).2 = a ∧
      recoverMosi (dualBytes a b).1 (dualBytes a b).2 = b := by
  have hdiv_a : a / 16 < 16 := by omega
  have hmod_a : a % 16 < 16 := by omega
  have hdiv_b : b / 16 < 16 := by omega
  have hmod_b : b % 16 < 16 := by omega
  rw [dualBytes_eq_nibMix a b ha hb]
  unfold recoverMiso recoverMosi
  simp only
  rw [(nibMix_roundtrip (a / 16) (b / 16) hdiv_a hdiv_b).1,
    (nibMix_roundtrip (a % 16) (b % 16) hmod_a hmod_b).1,
    (nibMix_roundtrip (a / 16) (b / 16) hdiv_a hdiv_b).2,
    (nibMix_roundtrip (a % 16) (b % 16) hmod_a hmod_b).2,
    shift4_or (a / 16) (a % 16) hdiv_a hmod_a,
    shift4_or (b / 16) (b % 16) hdiv_b hmod_b]
  omega

/-- C7 witness: the roundtrip at the concrete pair (0xF0, 0x0F). -/
theorem c7_dual_read_roundtrip_witness :
    recoverMiso (dualBytes 240 15).1 (dualBytes 240 15).2 = 240 ∧
      recoverMosi (dualBytes 240 15).1 (dualBytes 240 15).2 = 15 :=
  c7_dual_read_roundtrip 240 15 (by omega) (by omega)

/-! ## Concrete evaluations of the reconstruction paths -/

/-- C2: the S-record encoder does *not* emit one line per at-most-32-byte
chunk when the transaction holds 32 bytes or fewer.  For the 2-byte
transaction `address "000000"`, `data ["AA", "BB"]` the single expected
chunk is `["AA", "BB"]`, but the source's `data_chunks = entry['data']`
iterates the byte strings themselves, emitting one `S2` line per data byte
(with per-character checksums and a 32-byte address advance per line). -/
theorem c2_small_transaction_line_per_byte :
    srecLines "000000" ["AA", "BB"] =
      [{ byte_count := 6, address := "000000", data := "AA", checksum := 229 },
       { byte_count := 6, address := "000020", data := "BB", checksum := 195 }] := by
  decide

/-- C3: on the Scenario D trace (two identifier-field rows for `101`, each
followed by one data-field row) the tally maps `101` to 2 but the result
set holds only the first frame: the frame still open at end of stream is
left in `temp_entry` and never flushed to `results`. -/
theorem c3_last_frame_not_flushed :
    (canReadFile ["\"type\",\"identifier\",\"data\"",
      "\"identifier_field\",101,",
      "\"data_field\",,0x41",
      "\"identifier_field\",101,",
      "\"data_field\",,0x42"]).results = [{ id := "101", data := ["0x41"] }] ∧
    dictGet (canReadFile ["\"type\",\"identifier\",\"data\"",
      "\"identifier_field\",101,",
      "\"data_field\",,0x41",
      "\"identifier_field\",101,",
      "\"data_field\",,0x42"]).id_counter "101" = some 2 ∧
    (canReadFile ["\"type\",\"identifier\",\"data\"",
      "\"identifier_field\",101,",
      "\"data_field\",,0x41",
      "\"identifier_field\",101,",
      "\"data_field\",,0x42"]).temp = { id := "101", data := ["0x42"] } := by
  decide

/-- C4: in the type-column trace shape a FastRead transaction closes with an
8-hex-character address (four address bytes), because the FastRead
detection branch, unlike the Read branch, does not start the cycle counter
at 1, so the fourth post-command cycle still satisfies `count <= 3`. -/
theorem c4_fastread_address_eight_chars :
    (spiReadFile ["type,mosi,miso",
      "\"result\",0x0B,0x00",
      "\"result\",0x11,0x00",
      "\"result\",0x22,0x00",
      "\"result\",0x33,0x00",
      "\"result\",0x44,0x00",
      "\"disable\",,"]).results = [{ address := "11223344", data := [] }] ∧
    ("11223344" : String).length = 8 := by
  decide

/-- C5 counterexample: in the no-type trace shape a reappearance of the
*same* opcode byte (here `03`, the opcode of the open Read transaction)
after more than 4 cycles does close the transaction and start a new one,
contrary to the claim that only a *different* valid opcode closes it. -/
theorem c5_counterexample_same_opcode_closes :
    (spiReadFile ["mosi,miso",
      "0x03,0x00", "0x00,0x11", "0x01,0x22", "0x02,0x33", "0xFF,0x44",
      "0x03,0x00"]).results = [{ address := "000102", data := ["44"] }] ∧
    (spiReadFile ["mosi,miso",
      "0x03,0x00", "0x00,0x11", "0x01,0x22", "0x02,0x33", "0xFF,0x44",
      "0x03,0x00"]).command_found = some "03" ∧
    (spiReadFile ["mosi,miso",
      "0x03,0x00", "0x00,0x11", "0x01,0x22", "0x02,0x33", "0xFF,0x44",
      "0x03,0x00"]).count = 1 := by
  decide

/-- C6: with a data filter and an after capacity of 2, a stream that ends
one non-matching row after the last anchor leaves that anchor's `after`
key unset — the buffered row sits in `after_buffer` and is dropped at end
of stream instead of being attached to the anchor. -/
theorem c6_last_anchor_after_dropped :
    (analyzerReadFile { data_filter := some "A5", before := none, after := some 2 }
      ["h1,h2", "A5,x", "y,z"]).results =
      [{ val := ["A5", "x"], before := some [], after := none }] ∧
    (analyzerReadFile { data_filter := some "A5", before := none, after := some 2 }
      ["h1,h2", "A5,x", "y,z"]).after_buffer = [["y", "z"]] := by
  decide

/-- C8: a type-column SPI trace whose header names `MISO` (and `MOSI`) in
upper case still halts at the first `"result"` row with no records
appended, because the type-column branch tests only the lower-case name
`miso` before printing its missing-column error. -/
theorem c8_upper_miso_still_halts :
    (spiReadFile ["type,MOSI,MISO", "\"result\",0x03,0xAA"]).halted = true ∧
    (spiReadFile ["type,MOSI,MISO", "\"result\",0x03,0xAA"]).results = [] := by
  decide

/-- C8 companion: a type-column trace with neither `miso` nor `MISO` halts
at the first `"result"` row, and a lower-case `miso` header does not halt. -/
theorem c8_missing_miso_halts :
    (spiReadFile ["type,mosi,data", "\"result\",0x03,0xAA"]).halted = true ∧
    (spiReadFile ["type,mosi,miso", "\"result\",0x03,0xAA"]).halted = false := by
  decide

/-- C1 counterexample: an emitted chunk line of the 33-byte transaction at
address `000000` whose component sum is 255 modulo 256, not 0: the
checksum is a one's complement, so the congruence in the claim is off by
`0xFF`. -/
theorem c1_counterexample_sum_not_zero :
    ({ byte_count := 5, address := "000020", data := "00", checksum := 218 } : SRecLine) ∈
      srecLines "000000" (List.replicate 33 "00") ∧
    (5 + pairSum "000020" + pairSum "00" + 218) % 256 ≠ 0 := by
  decide

/-! ## The S-record checksum congruence (claim C1) -/

theorem xor255_fin : ∀ x : Fin 256, x.val ^^^ 255 = 255 - x.val := by
  decide

theorem xor255 (x : Nat) (hx : x < 256) : x ^^^ 255 = 255 - x :=
  xor255_fin ⟨x, hx⟩

theorem lineFor_sum (address joined : String) (count : Nat) (vals : List Nat)
    (hj : pairSum joined = vals.sum) :
    ((lineFor address count vals joined).byte_count +
      pairSum (lineFor address count vals joined).address +
      pairSum (lineFor address count vals joined).data +
      (lineFor address count vals joined).checksum) % 256 = 255 := by
  simp only [lineFor]
  rw [hj, xor255 _ (Nat.mod_lt _ (by omega))]
  omega

theorem pairSum_joinAll (c : List String) (h2 : ∀ s ∈ c, s.length = 2) :
    pairSum (joinAll c) = (c.map hexParse).sum := by
  induction c with
  | nil => rfl
  | cons s ss ih =>
    obtain ⟨c1, c2, hsd⟩ :=
      List.length_eq_two.mp (show s.data.length = 2 from h2 s (by simp))
    have hrest : ∀ t ∈ ss, t.length = 2 := fun t ht => h2 t (by simp [ht])
    simp only [joinAll, List.map_cons, List.sum_cons]
    unfold pairSum at ih ⊢
    rw [String.data_append, hsd]
    simp only [List.cons_append, List.append_eq, List.nil_append, hexPairsC, List.map_cons,
      List.sum_cons]
    rw [ih hrest]
    unfold hexParse
    rw [hsd]

theorem mem_of_mem_dcFuel {α : Type} (fuel : Nat) (l : List α) (n : Nat) (c : List α)
    (hc : c ∈ dcFuel fuel l n) : ∀ x ∈ c, x ∈ l := by
  induction fuel generalizing l with
  | zero => simp [dcFuel] at hc
  | succ f ih =>
    cases l with
    | nil => simp [dcFuel] at hc
    | cons y ys =>
      simp only [dcFuel, List.mem_cons] at hc
      rcases hc with h | h
      · intro x hx
        rw [h] at hx
        exact List.take_subset _ _ hx
      · intro x hx
        exact List.drop_subset _ _ (ih _ h x hx)

theorem goChunks_sum (cs : List (List String)) (address : String)
    (h2 : ∀ c ∈ cs, ∀ s ∈ c, s.length = 2) :
    ∀ line ∈ goChunks address cs,
      (line.byte_count + pairSum line.address + pairSum line.data + line.checksum) % 256 = 255 := by
  induction cs generalizing address with
  | nil =>
    intro line h
    simp [goChunks] at h
  | cons c cs ih =>
    intro line hline
    simp only [goChunks, List.mem_cons] at hline
    rcases hline with h | h
    · subst h
      exact lineFor_sum address (joinAll c) c.length (c.map hexParse)
        (pairSum_joinAll c (h2 c (by simp)))
    · exact ih (nextAddress address) (fun d hd s hs => h2 d (List.mem_cons_of_mem _ hd) s hs) line h

/-- C1 (amended): for every chunked S-record line — the path taken whenever
the transaction holds more than 32 data bytes, each encoded as two hex
characters — the sum of the encoded byte count, the three address bytes,
the chunk data bytes and the emitted checksum byte is congruent to 255
(`0xFF`), not 0, modulo 256: the checksum is a one's complement of the low
sum byte.  (For 32 bytes or fewer the encoder mis-chunks per claim C2, and
even its per-byte lines satisfy the same congruence only with respect to
the hex-digit values it actually sums.) -/
theorem c1_chunk_checksum_mod_255 (address : String) (data : List String) (line : SRecLine)
    (hlen : data.length > 32) (h2 : ∀ s ∈ data, s.length = 2)
    (hline : line ∈ srecLines address data) :
    (line.byte_count + pairSum line.address + pairSum line.data + line.checksum) % 256 = 255 := by
  unfold srecLines at hline
  rw [if_pos hlen] at hline
  exact goChunks_sum (divide_chunks data 32) address
    (fun c hc s hs => h2 s (mem_of_mem_dcFuel data.length data 32 c hc s hs)) line hline

/-- C1 witness: the congruence at the second emitted line of the 33-byte
transaction at address `000000`. -/
theorem c1_chunk_checksum_mod_255_witness :
    (({ byte_count := 5, address := "000020", data := "00", checksum := 218 } : SRecLine).byte_count +
      pairSum ({ byte_count := 5, address := "000020", data := "00", checksum := 218 } : SRecLine).address +
      pairSum ({ byte_count := 5, address := "000020", data := "00", checksum := 218 } : SRecLine).data +
      ({ byte_count := 5, address := "000020", data := "00", checksum := 218 } : SRecLine).checksum) % 256 = 255 :=
  c1_chunk_checksum_mod_255 "000000" (List.replicate 33 "00")
    { byte_count := 5, address := "000020", data := "00", checksum := 218 }
    (by decide) (by decide) (by decide)

/-! ## SPI state-machine lemmas (claims C5 and C10) -/

theorem spiProcessCmd_fields (s : SpiState) (cmd m w : String) :
    (spiProcessCmd s cmd m w).results = s.results ∧
    (spiProcessCmd s cmd m w).command_found = s.command_found ∧
    (spiProcessCmd s cmd m w).res_count = s.res_count ∧
    (spiProcessCmd s cmd m w).halted = s.halted := by
  unfold spiProcessCmd
  split_ifs <;> simp

theorem spiDetect_none (s1 : SpiState) (m w : String) (h : s1.command_found = none) :
    spiDetect s1 m w =
      (if m = READ then { s1 with command_found := some READ, count := s1.count + 1 }
       else if m = FAST_READ then { s1 with command_found := some FAST_READ, count := s1.count + 1 }
       else if m = FAST_DUAL_READ then
         { s1 with command_found := some FAST_DUAL_READ, count := s1.count + 1 }
       else if m = FAST_QUAD_READ then
         { s1 with command_found := some FAST_QUAD_READ, count := s1.count + 1 }
       else s1) := by
  unfold spiDetect
  rw [h]

theorem spiDetect_some (s1 : SpiState) (m w c : String) (h : s1.command_found = some c) :
    spiDetect s1 m w = spiProcessCmd s1 c m w := by
  unfold spiDetect
  rw [h]

theorem results_ne_append (rs : List SpiEntry) (e : SpiEntry) : ¬ rs = rs ++ [e] := by
  intro h
  have := congrArg List.length h
  simp at this

theorem spiNoTypeBody_close_iff (s : SpiState) (m w c : String) (hc : s.command_found = some c) :
    ((spiNoTypeBody s m w).results = s.results ++ [{ address := s.address, data := s.data_buf }] ∧
      (spiNoTypeBody s m w).command_found = some m ∧
      (spiNoTypeBody s m w).count = 1) ↔
    (s.count > 4 ∧ (m = READ ∨ m = FAST_READ ∨ m = FAST_DUAL_READ ∨ m = FAST_QUAD_READ)) := by
  unfold spiNoTypeBody
  by_cases hcl : s.count > 4 ∧ (m = READ ∨ m = FAST_READ ∨ m = FAST_DUAL_READ ∨ m = FAST_QUAD_READ)
  · rw [if_pos ⟨by rw [hc]; rfl, hcl.1, hcl.2⟩]
    rw [spiDetect_none _ m w rfl]
    refine iff_of_true ?_ hcl
    rcases hcl.2 with hm | hm | hm | hm <;> subst hm <;> simp [READ, FAST_READ, FAST_DUAL_READ, FAST_QUAD_READ]
  · rw [if_neg (by intro hx; exact hcl ⟨hx.2.1, hx.2.2⟩)]
    rw [spiDetect_some s m w c hc]
    refine iff_of_false ?_ hcl
    intro hx
    rw [(spiProcessCmd_fields s c m w).1] at hx
    exact results_ne_append s.results _ hx.1

/-- C5 (amended): in the no-type-column trace shape, the step on a data row
closes the in-progress transaction (appending it to the result set) and
starts a new transaction at cycle 1 with the detected opcode as its
command exactly when the row is well-formed and, after more than 4 elapsed
cycles, the command-line byte equals *any* of the four valid opcodes — the
current transaction's own opcode included, so a data byte equal to the
open command's opcode does close it. -/
theorem c5_close_on_any_opcode (headers : List String) (s : SpiState) (values : List String)
    (c : String) (hnt : headers.contains "type" = false) (hm : headers.contains "miso" = true)
    (hh : s.halted = false) (hc : s.command_found = some c) :
    (((spiStep headers s values).results =
        s.results ++ [{ address := s.address, data := s.data_buf }]) ∧
      (spiStep headers s values).command_found = some (mosiVal headers values) ∧
      (spiStep headers s values).count = 1) ↔
    (values.length = numCols headers ∧ s.count > 4 ∧
      (mosiVal headers values = READ ∨ mosiVal headers values = FAST_READ ∨
        mosiVal headers values = FAST_DUAL_READ ∨ mosiVal headers values = FAST_QUAD_READ)) := by
  unfold spiStep
  rw [hh]
  simp only [Bool.false_eq_true, if_false]
  by_cases hlen : values.length = numCols headers
  · rw [if_neg (by simpa using hlen), hnt]
    simp only [Bool.false_eq_true, if_false]
    unfold spiStepNoType
    rw [hm]
    simp only [if_true]
    rw [spiNoTypeBody_close_iff s (mosiVal headers values) (misoVal headers values) c hc]
    constructor
    · intro hx
      exact ⟨hlen, hx⟩
    · intro hx
      exact ⟨hx.2.1, hx.2.2⟩
  · rw [if_pos hlen]
    refine iff_of_false ?_ (by intro hx; exact hlen hx.1)
    intro hx
    exact results_ne_append s.results _ hx.1

/-- C5 witness: one concrete well-formed row with the same opcode `03`
reappearing after five cycles, closing the open Read transaction. -/
theorem c5_close_on_any_opcode_witness :
    (((spiStep ["mosi", "miso"]
        { command_found := some "03", count := 5, address := "000102", data_buf := ["44"],
          res_count := 0, results := [], halted := false } ["0x03", "0x00"]).results =
        [] ++ [{ address := "000102", data := ["44"] }]) ∧
      (spiStep ["mosi", "miso"]
        { command_found := some "03", count := 5, address := "000102", data_buf := ["44"],
          res_count := 0, results := [], halted := false } ["0x03", "0x00"]).command_found =
        some (mosiVal ["mosi", "miso"] ["0x03", "0x00"]) ∧
      (spiStep ["mosi", "miso"]
        { command_found := some "03", count := 5, address := "000102", data_buf := ["44"],
          res_count := 0, results := [], halted := false } ["0x03", "0x00"]).count = 1) :=
  (c5_close_on_any_opcode ["mosi", "miso"]
    { command_found := some "03", count := 5, address := "000102", data_buf := ["44"],
      res_count := 0, results := [], halted := false } ["0x03", "0x00"] "03"
    (by decide) (by decide) rfl rfl).mpr (by decide)

theorem spiResultType_none (s : SpiState) (m w : String) (h : s.command_found = none) :
    spiResultType s m w =
      (if m = READ ∧ s.res_count = 0 then
        { s with command_found := some READ, count := s.count + 1 }
       else if m = FAST_READ ∧ s.res_count = 0 then { s with command_found := some FAST_READ }
       else if m = FAST_DUAL_READ ∧ s.res_count = 0 then
         { s with command_found := some FAST_DUAL_READ }
       else if m = FAST_QUAD_READ ∧ s.res_count = 0 then
         { s with command_found := some FAST_QUAD_READ }
       else { s with res_count := s.res_count + 1 }) := by
  unfold spiResultType
  rw [h]

theorem spiResultType_some (s : SpiState) (m w c : String) (h : s.command_found = some c) :
    spiResultType s m w = spiProcessCmd s c m w := by
  unfold spiResultType
  rw [h]

theorem resCount_step (headers : List String) (hT : headers.contains "type" = true)
    (s : SpiState) (n : Nat) (values : List String)
    (h : s.halted = false → s.command_found = none → s.res_count = n) :
    (spiStep headers s values).halted = false →
    (spiStep headers s values).command_found = none →
    (spiStep headers s values).res_count = idleStep headers n values := by
  by_cases hh : s.halted = true
  · have hs : spiStep headers s values = s := by
      unfold spiStep
      rw [if_pos hh]
    rw [hs]
    intro h1 _
    rw [h1] at hh
    cases hh
  · have hhf : s.halted = false := by
      revert hh
      cases s.halted <;> simp
    unfold spiStep idleStep
    rw [hhf]
    simp only [Bool.false_eq_true, if_false]
    by_cases hlen : values.length ≠ numCols headers
    · rw [if_pos hlen, if_pos hlen]
      intro h1 h2
      exact h h1 h2
    · rw [if_neg hlen, if_neg hlen, hT]
      simp only [if_true]
      unfold spiStepType
      by_cases hdis : typeVal headers values = "\"disable\""
      · rw [if_pos hdis, if_pos hdis]
        cases s.command_found with
        | none =>
          simp only [Option.isSome_none, Bool.false_eq_true, if_false]
          intro _ _
          trivial
        | some c =>
          simp only [Option.isSome_some, if_true]
          intro _ _
          trivial
      · rw [if_neg hdis, if_neg hdis]
        by_cases hres : typeVal headers values = "\"result\""
        · rw [if_pos hres, if_pos hres]
          by_cases hmiso : headers.contains "miso" = true
          · rw [hmiso]
            simp only [if_true]
            cases hcf : s.command_found with
            | none =>
              rw [spiResultType_none _ _ _ hcf]
              split_ifs with h1 h2 h3 h4
              · intro _ hnone
                simp at hnone
              · intro _ hnone
                simp at hnone
              · intro _ hnone
                simp at hnone
              · intro _ hnone
                simp at hnone
              · intro ha hb
                have hn := h ha hb
                show s.res_count + 1 = n + 1
                omega
            | some c =>
              rw [spiResultType_some _ _ _ c hcf]
              intro _ hnone
              rw [(spiProcessCmd_fields s c (mosiVal headers values)
                (misoVal headers values)).2.1, hcf] at hnone
              cases hnone
          · have : headers.contains "miso" = false := by
              revert hmiso
              cases headers.contains "miso" <;> simp
            rw [this]
            simp only [Bool.false_eq_true, if_false]
            intro h1 _
            simp at h1
        · rw [if_neg hres, if_neg hres]
          intro h1 h2
          exact h h1 h2

theorem resCount_fold (headers : List String) (hT : headers.contains "type" = true)
    (rows : List (List String)) :
    ∀ (s : SpiState) (n : Nat), (s.halted = false → s.command_found = none → s.res_count = n) →
      ((rows.foldl (spiStep headers) s).halted = false →
        (rows.foldl (spiStep headers) s).command_found = none →
        (rows.foldl (spiStep headers) s).res_count = rows.foldl (idleStep headers) n) := by
  induction rows with
  | nil =>
    intro s n h
    exact h
  | cons v rows ih =>
    intro s n h
    exact ih (spiStep headers s v) (idleStep headers n v) (resCount_step headers hT s n v h)

theorem spiStep_activation (headers : List String) (s : SpiState) (values : List String)
    (hT : headers.contains "type" = true) (hm : headers.contains "miso" = true)
    (hh : s.halted = false) (hc : s.command_found = none) :
    ((spiStep headers s values).command_found.isSome = true ↔
      (values.length = numCols headers ∧ typeVal headers values = "\"result\"" ∧
        (mosiVal headers values = READ ∨ mosiVal headers values = FAST_READ ∨
          mosiVal headers values = FAST_DUAL_READ ∨ mosiVal headers values = FAST_QUAD_READ) ∧
        s.res_count = 0)) := by
  unfold spiStep
  rw [hh]
  simp only [Bool.false_eq_true, if_false]
  by_cases hlen : values.length = numCols headers
  · rw [if_neg (by simpa using hlen), hT]
    simp only [if_true]
    unfold spiStepType
    by_cases hdis : typeVal headers values = "\"disable\""
    · rw [if_pos hdis, hc]
      simp only [Option.isSome_none, Bool.false_eq_true, if_false]
      refine iff_of_false (by simp [hc]) ?_
      intro hx
      have hx2 := hx.2.1
      rw [hdis] at hx2
      exact absurd hx2 (by decide)
    · rw [if_neg hdis]
      by_cases hres : typeVal headers values = "\"result\""
      · rw [if_pos hres, hm]
        simp only [if_true]
        rw [spiResultType_none _ _ _ hc]
        split_ifs with h1 h2 h3 h4
        · exact iff_of_true (by simp) ⟨hlen, hres, Or.inl h1.1, h1.2⟩
        · exact iff_of_true (by simp) ⟨hlen, hres, Or.inr (Or.inl h2.1), h2.2⟩
        · exact iff_of_true (by simp) ⟨hlen, hres, Or.inr (Or.inr (Or.inl h3.1)), h3.2⟩
        · exact iff_of_true (by simp) ⟨hlen, hres, Or.inr (Or.inr (Or.inr h4.1)), h4.2⟩
        · refine iff_of_false (by simp [hc]) ?_
          intro hx
          rcases hx.2.2.1 with hop | hop | hop | hop
          · exact h1 ⟨hop, hx.2.2.2⟩
          · exact h2 ⟨hop, hx.2.2.2⟩
          · exact h3 ⟨hop, hx.2.2.2⟩
          · exact h4 ⟨hop, hx.2.2.2⟩
      · rw [if_neg hres]
        exact iff_of_false (by simp [hc]) (fun hx => hres hx.2.1)
  · rw [if_pos hlen]
    exact iff_of_false (by simp [hc]) (fun hx => hlen hx.1)

/-- C10: in the type-column SPI parser, starting from any processed prefix
of the stream that leaves the machine unhalted with no command active, the
next row is recognized as a read command exactly when it is a well-formed
`"result"` row whose command byte is one of the four opcodes *and* no
`"result"` row has been processed since the start of the stream or the
most recent `"disable"` row (`res_count = 0`): once any non-opcode result
row has been seen, every subsequent opcode byte is ignored until a
`"disable"` row resets the counter. -/
theorem c10_res_count_gates_detection (headers : List String) (rows : List (List String))
    (values : List String) (hT : headers.contains "type" = true)
    (hm : headers.contains "miso" = true)
    (hh : (spiRunRows headers rows).halted = false)
    (hc : (spiRunRows headers rows).command_found = none) :
    ((spiStep headers (spiRunRows headers rows) values).command_found.isSome = true ↔
      (values.length = numCols headers ∧ typeVal headers values = "\"result\"" ∧
        (mosiVal headers values = READ ∨ mosiVal headers values = FAST_READ ∨
          mosiVal headers values = FAST_DUAL_READ ∨ mosiVal headers values = FAST_QUAD_READ) ∧
        idleResultCount headers rows = 0)) := by
  have hres : (spiRunRows headers rows).res_count = idleResultCount headers rows :=
    resCount_fold headers hT rows initSpi 0 (fun _ _ => rfl) hh hc
  rw [spiStep_activation headers (spiRunRows headers rows) values hT hm hh hc, hres]

/-- C10 witness: after a lone `"disable"` row the counter is 0 and an `03`
result row is recognized. -/
theorem c10_res_count_gates_detection_witness :
    (spiStep ["type", "mosi", "miso"]
      (spiRunRows ["type", "mosi", "miso"] [["\"disable\"", "", ""]])
      ["\"result\"", "0x03", "0x00"]).command_found.isSome = true :=
  (c10_res_count_gates_detection ["type", "mosi", "miso"] [["\"disable\"", "", ""]]
    ["\"result\"", "0x03", "0x00"] (by decide) (by decide) (by decide) (by decide)).mpr
    (by decide)

/-! ## The quoted-newline repair pass (claim C9) -/

theorem mergeVal_length (a b : List String) (ha : a ≠ []) (hb : b ≠ []) :
    (mergeVal a b).length = a.length + b.length - 1 := by
  have hpa := List.length_pos.mpr ha
  have hpb := List.length_pos.mpr hb
  unfold mergeVal
  simp only [List.length_append, List.length_dropLast, List.length_tail, List.length_singleton]
  omega

theorem repairGo_emit (hlen : Nat) (r : AEntry) (rest : List AEntry)
    (h : ¬ r.val.length < hlen) :
    repairGo hlen r rest = r :: repairEntries hlen rest := by
  cases rest with
  | nil => rfl
  | cons nxt rest =>
    unfold repairGo
    rw [if_neg h]
    rfl

theorem repair_join_eq (hlen : Nat) (L : List LRow) (hv : ∀ r ∈ L, validRow hlen r) :
    repairEntries hlen ((L.map encodeRow).flatten) = L.map decodeRow := by
  induction L with
  | nil => rfl
  | cons r L ih =>
    have hr := hv r (List.mem_cons_self r L)
    have hL : ∀ x ∈ L, validRow hlen x := fun x hx => hv x (List.mem_cons_of_mem _ hx)
    cases r with
    | full v =>
      have hvl : v.length = hlen := hr
      show repairEntries hlen
        (({ val := v, before := none, after := none } : AEntry) :: (L.map encodeRow).flatten) = _
      show repairGo hlen { val := v, before := none, after := none } ((L.map encodeRow).flatten) = _
      rw [repairGo_emit hlen _ _ (by simp only []; omega)]
      rw [ih hL]
      rfl
    | split a b =>
      obtain ⟨ha, hb, hlt, hsum⟩ := hr
      show repairEntries hlen
        (({ val := a, before := none, after := none } : AEntry) ::
          ({ val := b, before := none, after := none } : AEntry) :: (L.map encodeRow).flatten) = _
      show repairGo hlen { val := a, before := none, after := none }
        (({ val := b, before := none, after := none } : AEntry) :: (L.map encodeRow).flatten) = _
      unfold repairGo
      rw [if_pos (show ({ val := a, before := none, after := none } : AEntry).val.length < hlen
        from hlt)]
      have hmlen : ¬ (mergeVal a b).length < hlen := by
        rw [mergeVal_length a b ha hb]
        have := List.length_pos.mpr ha
        omega
      rw [repairGo_emit hlen _ _ hmlen]
      rw [ih hL]
      rfl

theorem decode_length (hlen : Nat) (r : LRow) (h : validRow hlen r) :
    (decodeRow r).val.length = hlen := by
  cases r with
  | full v => exact h
  | split a b =>
    obtain ⟨ha, hb, hlt, hsum⟩ := h
    show (mergeVal a b).length = hlen
    rw [mergeVal_length a b ha hb]
    have := List.length_pos.mpr ha
    omega

/-- C9: for a valid export — each anomaly being a single quoted-newline
split of one logical row across two physical records — the repair pass
turns the physical record stream into exactly one record per logical row:
each split pair is replaced by the short record's last field joined to the
next record's first field with an embedded newline (plus the remaining
fields), and every record remaining after the pass has a field count equal
to the header's field count. -/
theorem c9_repair_restores_field_count (hlen : Nat) (L : List LRow)
    (hv : ∀ r ∈ L, validRow hlen r) :
    repairEntries hlen ((L.map encodeRow).flatten) = L.map decodeRow ∧
    (repairEntries hlen ((L.map encodeRow).flatten)).all
      (fun e => e.val.length == hlen) = true := by
  have heq := repair_join_eq hlen L hv
  refine ⟨heq, ?_⟩
  rw [heq, List.all_eq_true]
  intro e he
  rw [List.mem_map] at he
  obtain ⟨r, hr, hre⟩ := he
  rw [beq_iff_eq, ← hre]
  exact decode_length hlen r (hv r hr)

/-- C9 witness: a two-logical-row export with one split anomaly, header
width 2. -/
theorem c9_repair_restores_field_count_witness :
    repairEntries 2
        (([LRow.full ["a", "b"], LRow.split ["c"] ["d", "e"]].map encodeRow).flatten) =
      [LRow.full ["a", "b"], LRow.split ["c"] ["d", "e"]].map decodeRow ∧
    (repairEntries 2
        (([LRow.full ["a", "b"], LRow.split ["c"] ["d", "e"]].map encodeRow).flatten)).all
      (fun e => e.val.length == 2) = true :=
  c9_repair_restores_field_count 2 [LRow.full ["a", "b"], LRow.split ["c"] ["d", "e"]]
    (by decide)

end Saleae
